import Mathlib

/-!
A shallow embedding, in Lean 4, of planet's etcd lifecycle manager
(`tool/planet/etcd.go`): the version registry (`readEtcdVersion` /
`writeEtcdEnvironment`), the upgrade/rollback state machine (`etcdUpgrade`),
installation-time version resolution (`etcdInit`), proxy promotion
(`etcdPromote`), service disabling (`disableService` / `etcdDisable`) and the
process watcher (`waitForEtcdStopped`).

File contents are modelled as `List Char` so that the line splitting performed
by `bufio.ScanLines` (split at a newline, dropping one trailing carriage
return per line) and the key/value splitting performed by
`strings.SplitN(line, "=", 2)` can be reproduced character by character.

The external world (files, directories, symlinks, the container environment,
systemd unit states, and which systemctl invocations fail) is a record
`World`; each Go function becomes a Lean function from `World` to a result,
an updated `World`, and a list of the externally visible effects it
performed, mirroring the Go control flow including each early `return`.
-/

set_option autoImplicit false

namespace Planet

/-! ## Named constants

The constants referenced by `etcd.go` are declared elsewhere in the planet
repository; only their use sites are in scope here.  Their values are
modelled from the spec (record-file keys `current-version` /
`previous-version` / `storage-backend`, backend tags `etcd2`/`etcd3`, proxy
flag values `on`/`off`, distinct service-unit and file names); the proofs
depend only on the distinctness and character content visible in the spec.
-/

/-- Modelled from the spec: node environment file read by every flow. -/
def ContainerEnvironmentFile : String := "/etc/container-environment"

/-- Modelled from the spec: environment key holding the proxy-mode flag. -/
def EnvEtcdProxy : String := "PLANET_ETCD_PROXY"

/-- Modelled from the spec: proxy-mode flag value meaning proxy mode on. -/
def EtcdProxyOn : String := "on"

/-- Modelled from the spec: proxy-mode flag value meaning proxy mode off. -/
def EtcdProxyOff : String := "off"

/-- Modelled from the spec: environment key for the member name. -/
def EnvEtcdMemberName : String := "PLANET_ETCD_MEMBER_NAME"

/-- Modelled from the spec: environment key for the initial cluster list. -/
def EnvEtcdInitialCluster : String := "ETCD_INITIAL_CLUSTER"

/-- Modelled from the spec: environment key for the initial cluster state. -/
def EnvEtcdInitialClusterState : String := "ETCD_INITIAL_CLUSTER_STATE"

/-- Modelled from the spec: the primary etcd service unit. -/
def ETCDServiceName : String := "etcd.service"

/-- Modelled from the spec: the upgrade-shadow etcd service unit. -/
def ETCDUpgradeServiceName : String := "etcd-upgrade.service"

/-- Modelled from the spec: the dependent consumer service (kube-apiserver). -/
def APIServerServiceName : String := "kube-apiserver.service"

/-- Modelled from the spec: the node-health reporting service. -/
def PlanetAgentServiceName : String := "planet-agent.service"

/-- Modelled from the spec: data directory used while in proxy mode. -/
def ETCDProxyDir : String := "/ext/etcd/proxy"

/-- Modelled from the spec: base storage directory for etcd data. -/
def DefaultEtcdStoreBase : String := "/ext/etcd"

/-- Hardcoded in `etcdInit`: the legacy data directory whose absence marks a
new installation. -/
def DefaultEtcdMemberDir : String := "/ext/etcd/member"

/-- Modelled from the spec: the release descriptor file. -/
def DefaultPlanetReleaseFile : String := "/etc/planet-release"

/-- Modelled from the spec: the version record file. -/
def DefaultEtcdCurrentVersionFile : String := "/ext/etcd/etcd-version.txt"

/-- Modelled from the spec: the sentinel version label assumed for installs
that predate version tracking. -/
def AssumeEtcdVersionC : List Char := "v2.3.8".toList

/-- Modelled from the spec: record-file key for the current version. -/
def EnvEtcdVersionC : List Char := "current-version".toList

/-- Modelled from the spec: record-file key for the previous (backup)
version. -/
def EnvEtcdPrevVersionC : List Char := "previous-version".toList

/-- Modelled from the spec: record-file key for the storage-backend tag. -/
def EnvStorageBackendC : List Char := "storage-backend".toList

/-! ## Association-list utilities -/

/-- Lookup in an association list (first match wins), as Go map/file access. -/
def lookupKV {α : Type} (k : String) : List (String × α) → Option α
  | [] => none
  | (k', v) :: rest => if k' = k then some v else lookupKV k rest

/-- Replace the binding of `k` (or append it), as a file create/truncate. -/
def upsertKV {α : Type} (k : String) (v : α) : List (String × α) → List (String × α)
  | [] => [(k, v)]
  | (k', v') :: rest => if k' = k then (k, v) :: rest else (k', v') :: upsertKV k v rest

/-! ## Parsing: `readEtcdVersion` internals -/

/-- `strings.SplitN(line, "=", 2)` guarded by `strings.Contains(line, "=")`:
split at the first `'='`; `none` when the line holds no `'='`. -/
def splitKV : List Char → Option (List Char × List Char)
  | [] => none
  | c :: rest =>
    if c = '=' then some ([], rest)
    else
      match splitKV rest with
      | some (k, v) => some (c :: k, v)
      | none => none

/-- Split a character stream at newline characters, as `bufio.ScanLines`
tokenizes its input.  (A final newline yields one extra empty token compared
to `bufio`; an empty line carries no `'='` and is ignored by the parser, so
the parse result is unaffected.) -/
def splitLines : List Char → List (List Char)
  | [] => [[]]
  | c :: rest =>
    match splitLines rest with
    | [] => [[]]
    | l :: ls => if c = '\n' then [] :: l :: ls else (c :: l) :: ls

/-- `bufio.ScanLines` drops one trailing carriage return from each token. -/
def dropCR (l : List Char) : List Char :=
  match l.getLast? with
  | some c => if c = '\r' then l.dropLast else l
  | none => l

/-- One iteration of the scanner loop in `readEtcdVersion`: accumulate the
current/previous version values, a later occurrence of a key overwriting an
earlier one. -/
def parseStep (acc : List Char × List Char) (line : List Char) : List Char × List Char :=
  match splitKV (dropCR line) with
  | none => acc
  | some (k, v) =>
    if k = EnvEtcdVersionC then (v, acc.2)
    else if k = EnvEtcdPrevVersionC then (acc.1, v)
    else acc

/-! ## Error model

`trace.Wrap` preserves the error classification, so each error is carried as
its trace class together with its message. -/

inductive Err : Type where
  | notFound (msg : String)
  | badParameter (msg : String)
  | systemError (msg : String)
  | ctxError (msg : String)
  | wrapped (msg : String)
deriving DecidableEq, Repr

instance {ε α : Type} [DecidableEq ε] [DecidableEq α] : DecidableEq (Except ε α) := fun x y =>
  match x, y with
  | .ok a, .ok b =>
    if h : a = b then .isTrue (by rw [h]) else .isFalse (by intro hc; cases hc; exact h rfl)
  | .error e, .error f =>
    if h : e = f then .isTrue (by rw [h]) else .isFalse (by intro hc; cases hc; exact h rfl)
  | .ok _, .error _ => .isFalse (by intro hc; cases hc)
  | .error _, .ok _ => .isFalse (by intro hc; cases hc)

/-- The body of `readEtcdVersion` after the file is opened: scan the lines,
fail with `BadParameter` when no current version was found. -/
def parseVersionContent (cs : List Char) : Except Err (List Char × List Char) :=
  let r := (splitLines cs).foldl parseStep ([], [])
  if r.1 = [] then .error (.badParameter "unable to parse etcd version") else .ok r

/-- One `key=value` line as printed by `writeEtcdEnvironment`. -/
def kvLine (k v : List Char) : List Char := k ++ '=' :: (v ++ ['\n'])

/-- The full file content produced by `writeEtcdEnvironment`: the current
version, the previous version when nonempty, and the storage-backend tag
derived from whether the version is the sentinel. -/
def writeContent (version prev : List Char) : List Char :=
  kvLine EnvEtcdVersionC version
    ++ (if prev = [] then [] else kvLine EnvEtcdPrevVersionC prev)
    ++ kvLine EnvStorageBackendC
        (if version = AssumeEtcdVersionC then "etcd2".toList else "etcd3".toList)

/-! ## The world state and effect trace -/

/-- Externally visible effects, recorded in program order. -/
inductive Effect : Type where
  | writeFile (path : String)
  | removeAll (path : String)
  | removeLink (path : String)
  | symlink (target linkPath : String)
  | mkdirAll (path : String)
  | chown (path : String)
  | ctl (op service : String)
  | writeEnvFile
  | setupEtcd
deriving DecidableEq, Repr

/-- The modelled outside world: regular files (path to content), existing
data directories, symlinks (link path to target), the container environment,
systemd unit active states (absent entry: the status query itself fails),
and the set of systemctl invocations that fail. -/
structure World : Type where
  files : List (String × List Char)
  dirs : List String
  links : List (String × String)
  env : List (String × String)
  services : List (String × String)
  ctlFails : List (String × String)
deriving DecidableEq, Repr

/-- `env.Get`: empty string when the key is absent (box environment). -/
def envGet (w : World) (k : String) : String := (lookupKV k w.env).getD ""

/-- `os.RemoveAll p`: drop `p` and everything below it. -/
def removeAllDirs (p : String) (dirs : List String) : List String :=
  dirs.filter (fun d => !(d == p || (p ++ "/").isPrefixOf d))

/-! ## Version registry -/

/-- `readEtcdVersion(path)`: `NotFound` when the file is missing, otherwise
parse the key=value lines. -/
def readVersionFrom (w : World) (path : String) : Except Err (List Char × List Char) :=
  match lookupKV path w.files with
  | none => .error (.notFound ("failed to open " ++ path))
  | some c => parseVersionContent c

/-- Reading the release descriptor for the desired version. -/
def resolveRelease (w : World) : Except Err (List Char × List Char) :=
  readVersionFrom w DefaultPlanetReleaseFile

/-- Reading the version record inside `etcdUpgrade`: a missing record file
falls back to the sentinel version with no backup. -/
def resolveRecord (w : World) : Except Err (List Char × List Char) :=
  match readVersionFrom w DefaultEtcdCurrentVersionFile with
  | .error (.notFound _) => .ok (AssumeEtcdVersionC, [])
  | r => r

/-- `writeEtcdEnvironment(path, version, prev)`: truncate and rewrite the
record file.  (The `MkdirAll` on the record's parent directory is recorded
as an effect; the model's directory set tracks only etcd data
directories.) -/
def writeEtcdEnvironment (path : String) (version prev : List Char) (w : World) :
    World × List Effect :=
  ({ w with files := upsertKV path (writeContent version prev) w.files },
   [.mkdirAll path, .writeFile path])

/-! ## Upgrade/rollback state machine -/

/-- `getBaseEtcdDir`: the sentinel version resolves to the base storage
directory itself, any other version to a version-named subdirectory. -/
def getBaseEtcdDir (version : List Char) : String :=
  if version = AssumeEtcdVersionC then DefaultEtcdStoreBase
  else DefaultEtcdStoreBase ++ "/" ++ String.mk version

/-- The member data directory of a version, as purged by `etcdUpgrade`. -/
def memberDir (version : List Char) : String := getBaseEtcdDir version ++ "/member"

/-- The status of `svc` when the query succeeds and the status blocks the
upgrade (`getServiceStatus` result not `inactive` and not `failed`). -/
def badUnit (w : World) (svc : String) : Option String :=
  match lookupKV svc w.services with
  | none => none
  | some st => if st ≠ "inactive" ∧ st ≠ "failed" then some st else none

/-- The `BadParameter` message produced when a unit blocks the upgrade. -/
def precondMsg (svc st : String) : String :=
  svc ++ " must be disabled in order to run the upgrade. current status: " ++ st

/-- One iteration of the service-status loop of `etcdUpgrade`: a failing
status query is logged and skipped, a blocking status aborts. -/
def checkService (w : World) (svc : String) : Except Err Unit :=
  match badUnit w svc with
  | some st => .error (.badParameter (precondMsg svc st))
  | none => .ok ()

/-- The first service of `[ETCDServiceName, ETCDUpgradeServiceName]` whose
status query succeeds with a blocking status, together with that status. -/
def firstBad (w : World) : Option (String × String) :=
  match badUnit w ETCDServiceName with
  | some st => some (ETCDServiceName, st)
  | none =>
    match badUnit w ETCDUpgradeServiceName with
    | some st => some (ETCDUpgradeServiceName, st)
    | none => none

/-- The version-record / data-directory mutation step of `etcdUpgrade`:
on rollback, promote a nonempty backup to current and clear it; on upgrade,
record `desired` with the old current as backup when not yet converged,
purging the member directory displaced from the backup slot, then
unconditionally purge the member directory of `desired`. -/
def upgradePhase (rollback : Bool) (desired cv bv : List Char) (w : World) :
    World × List Effect :=
  if rollback then
    if bv ≠ [] then
      writeEtcdEnvironment DefaultEtcdCurrentVersionFile bv [] w
    else (w, [])
  else
    let p :=
      if cv ≠ desired then
        let q := writeEtcdEnvironment DefaultEtcdCurrentVersionFile desired cv w
        if bv ≠ [] then
          ({ q.1 with dirs := removeAllDirs (memberDir bv) q.1.dirs },
           q.2 ++ [.removeAll (memberDir bv)])
        else q
      else (w, [])
    ({ p.1 with dirs := removeAllDirs (memberDir desired) p.1.dirs },
     p.2 ++ [.removeAll (memberDir desired)])

/-- The final step of `etcdUpgrade`: query the kube-apiserver status
(propagating a query failure), and when it is not `inactive` request a
best-effort restart whose own failure is only logged. -/
def apiPhase (w : World) : Except Err Unit × List Effect :=
  match lookupKV APIServerServiceName w.services with
  | none =>
    (.error (.badParameter
      ("unexpected number of status results when checking service " ++ APIServerServiceName)), [])
  | some st =>
    if st ≠ "inactive" then (.ok (), [.ctl "restart" APIServerServiceName])
    else (.ok (), [])

/-- `etcdUpgrade(rollback)`: skip entirely in proxy mode; require both etcd
units inactive/failed; read the desired and recorded versions; perform the
record/directory mutation; best-effort restart of the consumer service. -/
def etcdUpgrade (rollback : Bool) (w : World) : Except Err Unit × World × List Effect :=
  if envGet w EnvEtcdProxy = EtcdProxyOn then (.ok (), w, [])
  else
    match checkService w ETCDServiceName with
    | .error e => (.error e, w, [])
    | .ok () =>
      match checkService w ETCDUpgradeServiceName with
      | .error e => (.error e, w, [])
      | .ok () =>
        match resolveRelease w with
        | .error e => (.error e, w, [])
        | .ok (desired, _) =>
          match resolveRecord w with
          | .error e => (.error e, w, [])
          | .ok (cv, bv) =>
            let p := upgradePhase rollback desired cv bv w
            let q := apiPhase p.1
            (q.1, p.1, p.2 ++ q.2)

/-! ## Installation-time version resolution: `etcdInit` -/

/-- The current-version resolution at the top of `etcdInit`: an existing
record wins; a missing record means the sentinel version, except that a
missing legacy data directory marks a new installation, in which case the
desired version is recorded (with no backup) and used.  Returns the resolved
version together with the updated world and effects. -/
def initResolve (desired : List Char) (w : World) :
    Except Err (List Char × World × List Effect) :=
  match readVersionFrom w DefaultEtcdCurrentVersionFile with
  | .ok (cv, _) => .ok (cv, w, [])
  | .error (.notFound _) =>
    if DefaultEtcdMemberDir ∈ w.dirs then .ok (AssumeEtcdVersionC, w, [])
    else
      let p := writeEtcdEnvironment DefaultEtcdCurrentVersionFile desired [] w
      .ok (desired, p.1, p.2)
  | .error e => .error e

/-- Repoint one binary symlink at its version-suffixed target (the removal
of a stale link deliberately ignores errors). -/
def relinkBinary (p : String) (version : List Char) (w : World) : World × List Effect :=
  ({ w with links := upsertKV p (p ++ "-" ++ String.mk version) w.links },
   [.removeLink p, .symlink (p ++ "-" ++ String.mk version) p])

/-- `etcdInit`: read the desired version, resolve the current version (with
new-installation detection), repoint the binary symlinks, then recreate the
`latest` data symlink at the version's data directory, creating it with
ownership copied from the base directory (whose `stat` must succeed). -/
def etcdInit (w : World) : Except Err Unit × World × List Effect :=
  match resolveRelease w with
  | .error e => (.error e, w, [])
  | .ok (desired, _) =>
    match initResolve desired w with
    | .error e => (.error e, w, [])
    | .ok (cv, w₁, t₁) =>
      let p₂ := relinkBinary "/usr/bin/etcd" cv w₁
      let p₃ := relinkBinary "/usr/bin/etcdctl" cv p₂.1
      let latestDir := DefaultEtcdStoreBase ++ "/latest"
      let dest := getBaseEtcdDir cv
      let w₄ := { p₃.1 with dirs := if dest ∈ p₃.1.dirs then p₃.1.dirs else dest :: p₃.1.dirs }
      let t₄ := [.removeLink latestDir, .mkdirAll dest]
      if DefaultEtcdStoreBase ∈ w₄.dirs then
        ((.ok ()),
         { w₄ with links := upsertKV latestDir dest w₄.links },
         t₁ ++ p₂.2 ++ p₃.2 ++ t₄ ++ [.chown dest, .symlink dest latestDir])
      else
        (.error (.notFound ("failed to stat " ++ DefaultEtcdStoreBase)), w₄,
         t₁ ++ p₂.2 ++ p₃.2 ++ t₄)

/-! ## Promotion flow: `etcdPromote` -/

/-- Run one external `systemctl` command: the effect is recorded and a
configured failure aborts with the captured output wrapped. -/
def runCtl (op service : String) (w : World) : Except Err Unit × List Effect :=
  if (op, service) ∈ w.ctlFails then
    (.error (.wrapped ("failed to " ++ op ++ " " ++ service)), [.ctl op service])
  else (.ok (), [.ctl op service])

/-- `etcdPromote(name, initialCluster, initialClusterState)`: nothing to do
when the environment already shows proxy mode off; otherwise merge the four
promotion keys into the node environment and persist it, stop the store,
wipe the proxy data directory, rerun the version-symlink setup
(`setupEtcd`, modelled from the spec as an opaque effect since its
definition lives outside this file's sources), reload unit definitions,
start the store and restart the agent. -/
def etcdPromote (name initialCluster initialClusterState : String) (w : World) :
    Except Err Unit × World × List Effect :=
  if envGet w EnvEtcdProxy = EtcdProxyOff then (.ok (), w, [])
  else
    let env₁ :=
      upsertKV EnvEtcdInitialClusterState initialClusterState
        (upsertKV EnvEtcdInitialCluster initialCluster
          (upsertKV EnvEtcdMemberName name
            (upsertKV EnvEtcdProxy EtcdProxyOff w.env)))
    let w₁ := { w with env := env₁ }
    let t₁ : List Effect := [.writeEnvFile]
    let c₁ := runCtl "stop" "etcd" w₁
    match c₁.1 with
    | .error e => (.error e, w₁, t₁ ++ c₁.2)
    | .ok () =>
      let w₂ := { w₁ with dirs := removeAllDirs ETCDProxyDir w₁.dirs }
      let t₂ := t₁ ++ c₁.2 ++ [.removeAll ETCDProxyDir, .setupEtcd]
      let c₂ := runCtl "daemon-reload" "" w₂
      match c₂.1 with
      | .error e => (.error e, w₂, t₂ ++ c₂.2)
      | .ok () =>
        let c₃ := runCtl "start" ETCDServiceName w₂
        match c₃.1 with
        | .error e => (.error e, w₂, t₂ ++ c₂.2 ++ c₃.2)
        | .ok () =>
          let c₄ := runCtl "restart" PlanetAgentServiceName w₂
          match c₄.1 with
          | .error e => (.error e, w₂, t₂ ++ c₂.2 ++ c₃.2 ++ c₄.2)
          | .ok () => (.ok (), w₂, t₂ ++ c₂.2 ++ c₃.2 ++ c₄.2)

/-! ## Process watcher and service disabling

The watcher polls the process table on a fixed tick, bounded by the context
deadline.  Time is modelled by a schedule `sched` giving the process table
(executable names) observed at each tick, and by the number `fuel` of ticks
remaining before the context deadline fires; each loop iteration consumes
one tick before scanning, exactly as the Go `select` waits for the ticker. -/

/-- `waitForEtcdStopped`: at each tick scan the process table; keep looping
while a process whose executable is exactly `"etcd"` remains; fail with the
context error once the deadline fires. -/
def waitForEtcdStopped (sched : Nat → List String) (i fuel : Nat) : Except Err Unit :=
  match fuel with
  | 0 => .error (.ctxError "context deadline exceeded")
  | fuel + 1 =>
    if "etcd" ∈ sched i then waitForEtcdStopped sched (i + 1) fuel
    else .ok ()

/-- `disableService(service)`: mask the unit, stop it, then block until no
process named `etcd` remains in the process table. -/
def disableService (service : String) (fails : List (String × String))
    (sched : Nat → List String) (fuel : Nat) : Except Err Unit × List Effect :=
  if ("mask", service) ∈ fails then
    (.error (.wrapped ("failed to mask " ++ service)), [.ctl "mask" service])
  else if ("stop", service) ∈ fails then
    (.error (.wrapped ("failed to stop " ++ service)), [.ctl "mask" service, .ctl "stop" service])
  else
    (waitForEtcdStopped sched 0 fuel, [.ctl "mask" service, .ctl "stop" service])

/-- `etcdDisable(upgradeService)`: disable the upgrade-shadow unit or the
primary unit. -/
def etcdDisable (upgradeService : Bool) (fails : List (String × String))
    (sched : Nat → List String) (fuel : Nat) : Except Err Unit × List Effect :=
  if upgradeService then disableService ETCDUpgradeServiceName fails sched fuel
  else disableService ETCDServiceName fails sched fuel

/-! ## Association-list and filter lemmas -/

theorem lookupKV_upsert_self {α : Type} (k : String) (v : α) (l : List (String × α)) :
    lookupKV k (upsertKV k v l) = some v := by
  induction l with
  | nil => simp [lookupKV, upsertKV]
  | cons h t ih =>
    obtain ⟨k', v'⟩ := h
    by_cases hk : k' = k
    · simp [upsertKV, hk, lookupKV]
    · simp [upsertKV, hk, lookupKV, ih]

theorem lookupKV_upsert_ne {α : Type} (k k' : String) (hk : k' ≠ k) (v : α)
    (l : List (String × α)) : lookupKV k' (upsertKV k v l) = lookupKV k' l := by
  induction l with
  | nil =>
    simp only [upsertKV, lookupKV]
    rw [if_neg (fun h => hk h.symm)]
  | cons h t ih =>
    obtain ⟨k₀, v₀⟩ := h
    by_cases h₀ : k₀ = k
    · subst h₀
      simp only [upsertKV, if_pos rfl, lookupKV]
      rw [if_neg (fun h => hk h.symm), if_neg (fun h => hk h.symm)]
    · simp [upsertKV, h₀, lookupKV, ih]

theorem removeAllDirs_idem (p : String) (dirs : List String) :
    removeAllDirs p (removeAllDirs p dirs) = removeAllDirs p dirs := by
  unfold removeAllDirs
  induction dirs with
  | nil => rfl
  | cons d t ih =>
    by_cases h : (!(d == p || (p ++ "/").isPrefixOf d)) = true
    · simp only [List.filter_cons, h, if_pos, ih]
    · simp only [List.filter_cons, h, if_neg, ih]
      simp [h, ih]

/-! ## `getLast?` and `dropCR` lemmas -/

theorem getLast?_append_right {α : Type} (a : List α) {b : List α} (hb : b ≠ []) :
    (a ++ b).getLast? = b.getLast? := by
  induction a with
  | nil => rfl
  | cons x a ih =>
    rw [List.cons_append, ← ih]
    cases h : a ++ b with
    | nil => exact absurd (List.append_eq_nil.1 h).2 hb
    | cons y t => rw [List.getLast?_cons_cons]

theorem dropCR_of_ne {l : List Char} (h : l.getLast? ≠ some '\r') : dropCR l = l := by
  unfold dropCR
  cases hg : l.getLast? with
  | none => rfl
  | some c =>
    have hc : c ≠ '\r' := fun he => h (he ▸ hg)
    simp [hc]

theorem dropCR_append (a : List Char) {b : List Char} (hb : b ≠ []) :
    dropCR (a ++ b) = a ++ dropCR b := by
  obtain ⟨c, hc⟩ : ∃ c, b.getLast? = some c := by
    cases b with
    | nil => exact absurd rfl hb
    | cons x xs => exact ⟨(x :: xs).getLast (List.cons_ne_nil x xs),
        Option.mem_def.1 (List.getLast_mem_getLast? (List.cons_ne_nil x xs))⟩
  obtain ⟨ys, rfl⟩ := List.getLast?_eq_some_iff.1 hc
  have h1 : (a ++ (ys ++ [c])).getLast? = some c := by
    rw [← List.append_assoc]; exact List.getLast?_concat _
  by_cases hcr : c = '\r'
  · subst hcr
    unfold dropCR
    rw [h1, hc]
    show ((a ++ (ys ++ ['\r'])).dropLast = a ++ (ys ++ ['\r']).dropLast)
    rw [← List.append_assoc, List.dropLast_concat, List.dropLast_concat]
  · unfold dropCR
    rw [h1, hc]
    show ((if c = '\r' then (a ++ (ys ++ [c])).dropLast else a ++ (ys ++ [c]))
      = a ++ if c = '\r' then (ys ++ [c]).dropLast else ys ++ [c])
    rw [if_neg hcr, if_neg hcr]

theorem mem_dropCR {c : Char} {l : List Char} (h : c ∈ dropCR l) : c ∈ l := by
  unfold dropCR at h
  cases hg : l.getLast? with
  | none => rw [hg] at h; exact h
  | some x =>
    rw [hg] at h
    have h' : c ∈ if x = '\r' then l.dropLast else l := h
    by_cases hx : x = '\r'
    · rw [if_pos hx] at h'
      obtain ⟨ys, rfl⟩ := List.getLast?_eq_some_iff.1 hg
      rw [List.dropLast_concat] at h'
      exact List.mem_append_left _ h'
    · rw [if_neg hx] at h'; exact h'

/-! ## `splitKV` lemmas -/

theorem splitKV_key (k v : List Char) (hk : '=' ∉ k) : splitKV (k ++ '=' :: v) = some (k, v) := by
  induction k with
  | nil => simp [splitKV]
  | cons c k ih =>
    have hc : c ≠ '=' := fun h => hk (h ▸ List.mem_cons_self c k)
    have hk' : '=' ∉ k := fun h => hk (List.mem_cons_of_mem _ h)
    simp [splitKV, hc, ih hk']

theorem splitKV_val_mem {l k v : List Char} (h : splitKV l = some (k, v)) :
    ∀ c ∈ v, c ∈ l := by
  induction l generalizing k v with
  | nil => simp [splitKV] at h
  | cons a rest ih =>
    by_cases ha : a = '='
    · subst ha
      simp only [splitKV, if_pos rfl, Option.some.injEq, Prod.mk.injEq] at h
      obtain ⟨_, rfl⟩ := h
      exact fun c hc => List.mem_cons_of_mem _ hc
    · simp only [splitKV, if_neg ha] at h
      cases hr : splitKV rest with
      | none => rw [hr] at h; simp at h
      | some p =>
        obtain ⟨k', v'⟩ := p
        rw [hr] at h
        simp only [Option.some.injEq, Prod.mk.injEq] at h
        obtain ⟨_, rfl⟩ := h
        exact fun c hc => List.mem_cons_of_mem _ (ih hr c hc)

/-! ## `splitLines` lemmas -/

theorem splitLines_ne_nil (cs : List Char) : splitLines cs ≠ [] := by
  cases cs with
  | nil => simp [splitLines]
  | cons c rest =>
    simp only [splitLines]
    cases h : splitLines rest with
    | nil => simp
    | cons l ls => by_cases hc : c = '\n' <;> simp [hc]

theorem splitLines_newline (rest : List Char) :
    splitLines ('\n' :: rest) = [] :: splitLines rest := by
  cases h : splitLines rest with
  | nil => exact absurd h (splitLines_ne_nil rest)
  | cons l ls => simp [splitLines, h]

theorem splitLines_cons_ne (c : Char) (hc : c ≠ '\n') (cs : List Char) :
    ∃ l ls, splitLines cs = l :: ls ∧ splitLines (c :: cs) = (c :: l) :: ls := by
  cases h : splitLines cs with
  | nil => exact absurd h (splitLines_ne_nil cs)
  | cons l ls => exact ⟨l, ls, rfl, by simp [splitLines, h, hc]⟩

theorem splitLines_append (a rest : List Char) (ha : '\n' ∉ a) :
    splitLines (a ++ '\n' :: rest) = a :: splitLines rest := by
  induction a with
  | nil => simpa using splitLines_newline rest
  | cons c a ih =>
    have hc : c ≠ '\n' := fun h => ha (h ▸ List.mem_cons_self c a)
    have ha' : '\n' ∉ a := fun h => ha (List.mem_cons_of_mem _ h)
    obtain ⟨l, ls, h1, h2⟩ := splitLines_cons_ne c hc (a ++ '\n' :: rest)
    rw [ih ha'] at h1
    have h1' := h1
    simp only [List.cons.injEq] at h1'
    obtain ⟨ha1, ha2⟩ := h1'
    subst ha1
    subst ha2
    rw [List.cons_append, h2]

theorem mem_splitLines_no_newline (cs : List Char) : ∀ l ∈ splitLines cs, '\n' ∉ l := by
  induction cs with
  | nil =>
    intro l hl
    simp only [splitLines, List.mem_singleton] at hl
    subst hl; simp
  | cons c rest ih =>
    intro l hl
    simp only [splitLines] at hl
    cases h : splitLines rest with
    | nil => exact absurd h (splitLines_ne_nil rest)
    | cons l0 ls =>
      rw [h] at hl
      have hl' : l ∈ if c = '\n' then [] :: l0 :: ls else (c :: l0) :: ls := hl
      by_cases hc : c = '\n'
      · rw [if_pos hc] at hl'
        rcases List.mem_cons.1 hl' with h1 | h2
        · subst h1; simp
        · exact ih l (h ▸ h2)
      · rw [if_neg hc] at hl'
        rcases List.mem_cons.1 hl' with h1 | h2
        · subst h1
          intro hm
          rcases List.mem_cons.1 hm with he | hm0
          · exact hc he.symm
          · exact ih l0 (h ▸ List.mem_cons_self l0 ls) hm0
        · exact ih l (h ▸ List.mem_cons_of_mem _ h2)

/-! ## Parse/serialize round trip -/

theorem getLast?_cons_of_ne_nil {α : Type} (x : α) {l : List α} (hl : l ≠ []) :
    (x :: l).getLast? = l.getLast? := by
  cases l with
  | nil => exact absurd rfl hl
  | cons y t => rw [List.getLast?_cons_cons]

theorem parseStep_eq (acc : List Char × List Char) (line k vv : List Char)
    (h : splitKV (dropCR line) = some (k, vv)) :
    parseStep acc line =
      if k = EnvEtcdVersionC then (vv, acc.2)
      else if k = EnvEtcdPrevVersionC then (acc.1, vv) else acc := by
  unfold parseStep
  rw [h]

theorem parseStep_none (acc : List Char × List Char) (line : List Char)
    (h : splitKV (dropCR line) = none) : parseStep acc line = acc := by
  unfold parseStep
  rw [h]

theorem parseStep_nil (acc : List Char × List Char) : parseStep acc [] = acc := rfl

theorem parseStep_no_newline (acc : List Char × List Char) (l : List Char)
    (hl : '\n' ∉ l) (h1 : '\n' ∉ acc.1) (h2 : '\n' ∉ acc.2) :
    '\n' ∉ (parseStep acc l).1 ∧ '\n' ∉ (parseStep acc l).2 := by
  cases hs : splitKV (dropCR l) with
  | none => rw [parseStep_none acc l hs]; exact ⟨h1, h2⟩
  | some p =>
    obtain ⟨k, v⟩ := p
    have hv : '\n' ∉ v := fun hm => hl (mem_dropCR (splitKV_val_mem hs _ hm))
    rw [parseStep_eq acc l k v hs]
    by_cases hk1 : k = EnvEtcdVersionC
    · rw [if_pos hk1]; exact ⟨hv, h2⟩
    · rw [if_neg hk1]
      by_cases hk2 : k = EnvEtcdPrevVersionC
      · rw [if_pos hk2]; exact ⟨h1, hv⟩
      · rw [if_neg hk2]; exact ⟨h1, h2⟩

theorem foldl_parseStep_no_newline (lines : List (List Char)) :
    ∀ acc : List Char × List Char, (∀ l ∈ lines, '\n' ∉ l) → '\n' ∉ acc.1 → '\n' ∉ acc.2 →
      '\n' ∉ (lines.foldl parseStep acc).1 ∧ '\n' ∉ (lines.foldl parseStep acc).2 := by
  induction lines with
  | nil => exact fun acc _ h1 h2 => ⟨h1, h2⟩
  | cons l ls ih =>
    intro acc hl h1 h2
    rw [List.foldl_cons]
    have hstep := parseStep_no_newline acc l (hl l (List.mem_cons_self l ls)) h1 h2
    exact ih (parseStep acc l) (fun x hx => hl x (List.mem_cons_of_mem _ hx)) hstep.1 hstep.2

theorem parse_ok_props {cs cv bv : List Char} (h : parseVersionContent cs = .ok (cv, bv)) :
    cv ≠ [] ∧ '\n' ∉ cv ∧ '\n' ∉ bv := by
  simp only [parseVersionContent] at h
  by_cases hz : ((splitLines cs).foldl parseStep ([], [])).1 = []
  · rw [if_pos hz] at h; cases h
  · rw [if_neg hz] at h
    have hok : (splitLines cs).foldl parseStep ([], []) = (cv, bv) := Except.ok.inj h
    have hnn := foldl_parseStep_no_newline (splitLines cs) ([], [])
      (mem_splitLines_no_newline cs) (by simp) (by simp)
    rw [hok] at hnn hz
    exact ⟨hz, hnn.1, hnn.2⟩

theorem kvLine_append (k v X : List Char) :
    kvLine k v ++ X = (k ++ '=' :: v) ++ '\n' :: X := by
  simp [kvLine, List.append_assoc]

/-- The round trip at the heart of the registry: parsing back a file written
by `writeEtcdEnvironment` (with an arbitrary backend value line) recovers the
written current version exactly and the written previous version up to the
scanner dropping one trailing carriage return. -/
theorem parse_write_core (v b bk : List Char) (hv : v ≠ []) (hnv : '\n' ∉ v)
    (hrv : v.getLast? ≠ some '\r') (hnb : '\n' ∉ b)
    (hbkn : '\n' ∉ bk) (hbkne : bk ≠ []) (hbkr : bk.getLast? ≠ some '\r') :
    parseVersionContent (kvLine EnvEtcdVersionC v
      ++ (if b = [] then [] else kvLine EnvEtcdPrevVersionC b)
      ++ kvLine EnvStorageBackendC bk) = .ok (v, dropCR b) := by
  have hk1e : '=' ∉ EnvEtcdVersionC := by decide
  have hk2e : '=' ∉ EnvEtcdPrevVersionC := by decide
  have hk3e : '=' ∉ EnvStorageBackendC := by decide
  have hline1 : '\n' ∉ EnvEtcdVersionC ++ '=' :: v := by
    intro hm
    rcases List.mem_append.1 hm with h | h
    · exact absurd h (by decide)
    · rcases List.mem_cons.1 h with h | h
      · exact absurd h (by decide)
      · exact hnv h
  have hline2 : '\n' ∉ EnvEtcdPrevVersionC ++ '=' :: b := by
    intro hm
    rcases List.mem_append.1 hm with h | h
    · exact absurd h (by decide)
    · rcases List.mem_cons.1 h with h | h
      · exact absurd h (by decide)
      · exact hnb h
  have hline3 : '\n' ∉ EnvStorageBackendC ++ '=' :: bk := by
    intro hm
    rcases List.mem_append.1 hm with h | h
    · exact absurd h (by decide)
    · rcases List.mem_cons.1 h with h | h
      · exact absurd h (by decide)
      · exact hbkn h
  -- the three parse steps
  have hd1 : dropCR (EnvEtcdVersionC ++ '=' :: v) = EnvEtcdVersionC ++ '=' :: v := by
    apply dropCR_of_ne
    rw [getLast?_append_right _ (List.cons_ne_nil _ _), getLast?_cons_of_ne_nil _ hv]
    exact hrv
  have hp1 : ∀ acc : List Char × List Char,
      parseStep acc (EnvEtcdVersionC ++ '=' :: v) = (v, acc.2) := by
    intro acc
    rw [parseStep_eq acc _ EnvEtcdVersionC v (by rw [hd1]; exact splitKV_key _ _ hk1e)]
    rw [if_pos rfl]
  have hd3 : dropCR (EnvStorageBackendC ++ '=' :: bk) = EnvStorageBackendC ++ '=' :: bk := by
    apply dropCR_of_ne
    rw [getLast?_append_right _ (List.cons_ne_nil _ _), getLast?_cons_of_ne_nil _ hbkne]
    exact hbkr
  have hp3 : ∀ acc : List Char × List Char,
      parseStep acc (EnvStorageBackendC ++ '=' :: bk) = acc := by
    intro acc
    rw [parseStep_eq acc _ EnvStorageBackendC bk (by rw [hd3]; exact splitKV_key _ _ hk3e)]
    rw [if_neg (by decide), if_neg (by decide)]
  by_cases hb : b = []
  · subst hb
    rw [if_pos rfl, List.append_nil]
    have hlines : splitLines (kvLine EnvEtcdVersionC v ++ kvLine EnvStorageBackendC bk)
        = [EnvEtcdVersionC ++ '=' :: v, EnvStorageBackendC ++ '=' :: bk, []] := by
      rw [kvLine_append, splitLines_append _ _ hline1]
      congr 1
      have h3 : kvLine EnvStorageBackendC bk = (EnvStorageBackendC ++ '=' :: bk) ++ '\n' :: [] := by
        rw [← kvLine_append, List.append_nil]
      rw [h3, splitLines_append _ _ hline3]
      rfl
    simp only [parseVersionContent]
    rw [hlines]
    rw [List.foldl_cons, hp1, List.foldl_cons, hp3, List.foldl_cons, parseStep_nil,
      List.foldl_nil]
    simp [hv]
    rfl
  · rw [if_neg hb]
    have hd2 : dropCR (EnvEtcdPrevVersionC ++ '=' :: b) = EnvEtcdPrevVersionC ++ '=' :: dropCR b := by
      rw [show EnvEtcdPrevVersionC ++ '=' :: b = (EnvEtcdPrevVersionC ++ ['=']) ++ b by simp]
      rw [dropCR_append _ hb]
      simp
    have hp2 : ∀ acc : List Char × List Char,
        parseStep acc (EnvEtcdPrevVersionC ++ '=' :: b) = (acc.1, dropCR b) := by
      intro acc
      rw [parseStep_eq acc _ EnvEtcdPrevVersionC (dropCR b)
        (by rw [hd2]; exact splitKV_key _ _ hk2e)]
      rw [if_neg (by decide), if_pos rfl]
    have hlines : splitLines (kvLine EnvEtcdVersionC v ++ kvLine EnvEtcdPrevVersionC b
        ++ kvLine EnvStorageBackendC bk)
        = [EnvEtcdVersionC ++ '=' :: v, EnvEtcdPrevVersionC ++ '=' :: b,
           EnvStorageBackendC ++ '=' :: bk, []] := by
      rw [List.append_assoc, kvLine_append, splitLines_append _ _ hline1]
      congr 1
      rw [kvLine_append, splitLines_append _ _ hline2]
      congr 1
      have h3 : kvLine EnvStorageBackendC bk = (EnvStorageBackendC ++ '=' :: bk) ++ '\n' :: [] := by
        rw [← kvLine_append, List.append_nil]
      rw [h3, splitLines_append _ _ hline3]
      rfl
    simp only [parseVersionContent]
    rw [hlines]
    rw [List.foldl_cons, hp1, List.foldl_cons, hp2, List.foldl_cons, hp3, List.foldl_cons,
      parseStep_nil, List.foldl_nil]
    simp [hv]

/-- Round trip for `writeEtcdEnvironment` content: the current version is
recovered exactly, the previous version up to one trailing carriage return. -/
theorem parse_writeContent (v b : List Char) (hv : v ≠ []) (hnv : '\n' ∉ v)
    (hrv : v.getLast? ≠ some '\r') (hnb : '\n' ∉ b) :
    parseVersionContent (writeContent v b) = .ok (v, dropCR b) := by
  unfold writeContent
  apply parse_write_core v b _ hv hnv hrv hnb
  · by_cases h : v = AssumeEtcdVersionC <;> simp [h]
  · by_cases h : v = AssumeEtcdVersionC <;> simp [h]
  · by_cases h : v = AssumeEtcdVersionC <;> simp [h]

/-! ## State-machine lemmas -/

theorem readVersionFrom_files {w w' : World} (h : w'.files = w.files) (p : String) :
    readVersionFrom w' p = readVersionFrom w p := by
  unfold readVersionFrom; rw [h]

theorem resolveRecord_files {w w' : World} (h : w'.files = w.files) :
    resolveRecord w' = resolveRecord w := by
  unfold resolveRecord; rw [readVersionFrom_files h]

theorem resolveRelease_files {w w' : World} (h : w'.files = w.files) :
    resolveRelease w' = resolveRelease w := by
  unfold resolveRelease; rw [readVersionFrom_files h]

theorem badUnit_services {w w' : World} (h : w'.services = w.services) (s : String) :
    badUnit w' s = badUnit w s := by
  unfold badUnit; rw [h]

theorem envGet_env {w w' : World} (h : w'.env = w.env) (k : String) :
    envGet w' k = envGet w k := by
  unfold envGet; rw [h]

theorem apiPhase_services {w w' : World} (h : w'.services = w.services) :
    apiPhase w' = apiPhase w := by
  unfold apiPhase; rw [h]

theorem upgradePhase_env (rb : Bool) (d cv bv : List Char) (w : World) :
    (upgradePhase rb d cv bv w).1.env = w.env := by
  unfold upgradePhase writeEtcdEnvironment
  split
  · split <;> rfl
  · dsimp only
    split
    · split <;> rfl
    · rfl

theorem upgradePhase_services (rb : Bool) (d cv bv : List Char) (w : World) :
    (upgradePhase rb d cv bv w).1.services = w.services := by
  unfold upgradePhase writeEtcdEnvironment
  split
  · split <;> rfl
  · dsimp only
    split
    · split <;> rfl
    · rfl

theorem upgradePhase_links (rb : Bool) (d cv bv : List Char) (w : World) :
    (upgradePhase rb d cv bv w).1.links = w.links := by
  unfold upgradePhase writeEtcdEnvironment
  split
  · split <;> rfl
  · dsimp only
    split
    · split <;> rfl
    · rfl

theorem upgradePhase_ctlFails (rb : Bool) (d cv bv : List Char) (w : World) :
    (upgradePhase rb d cv bv w).1.ctlFails = w.ctlFails := by
  unfold upgradePhase writeEtcdEnvironment
  split
  · split <;> rfl
  · dsimp only
    split
    · split <;> rfl
    · rfl

theorem upgradePhase_rollback_nil (d cv : List Char) (w : World) :
    upgradePhase true d cv [] w = (w, []) := by
  unfold upgradePhase
  rw [if_pos rfl, if_neg (fun h => h rfl)]

theorem upgradePhase_rollback_some (d cv bv : List Char) (hbv : bv ≠ []) (w : World) :
    upgradePhase true d cv bv w = writeEtcdEnvironment DefaultEtcdCurrentVersionFile bv [] w := by
  unfold upgradePhase
  rw [if_pos rfl, if_pos hbv]

theorem upgradePhase_upgrade_eq (d bv : List Char) (w : World) :
    upgradePhase false d d bv w =
      ({ w with dirs := removeAllDirs (memberDir d) w.dirs }, [.removeAll (memberDir d)]) := by
  unfold upgradePhase
  rw [if_neg (by simp)]
  dsimp only
  rw [if_neg (fun h => h rfl)]
  rfl

theorem upgradePhase_upgrade_ne_nil (d cv : List Char) (hne : cv ≠ d) (w : World) :
    upgradePhase false d cv [] w =
      ({ w with files := upsertKV DefaultEtcdCurrentVersionFile (writeContent d cv) w.files,
                dirs := removeAllDirs (memberDir d) w.dirs },
       [.mkdirAll DefaultEtcdCurrentVersionFile, .writeFile DefaultEtcdCurrentVersionFile,
        .removeAll (memberDir d)]) := by
  unfold upgradePhase writeEtcdEnvironment
  rw [if_neg (by simp)]
  dsimp only
  rw [if_pos hne, if_neg (fun h => h rfl)]
  rfl

theorem upgradePhase_upgrade_ne_some (d cv bv : List Char) (hne : cv ≠ d) (hbv : bv ≠ [])
    (w : World) :
    upgradePhase false d cv bv w =
      ({ w with files := upsertKV DefaultEtcdCurrentVersionFile (writeContent d cv) w.files,
                dirs := removeAllDirs (memberDir d)
                  (removeAllDirs (memberDir bv) w.dirs) },
       [.mkdirAll DefaultEtcdCurrentVersionFile, .writeFile DefaultEtcdCurrentVersionFile,
        .removeAll (memberDir bv), .removeAll (memberDir d)]) := by
  unfold upgradePhase writeEtcdEnvironment
  rw [if_neg (by simp)]
  dsimp only
  rw [if_pos hne, if_pos hbv]
  rfl

/-- Symbolic execution of `etcdUpgrade` past its guards: with proxy mode not
on, both unit checks passing, and both version reads succeeding, the flow is
the record/directory phase followed by the consumer-service phase. -/
theorem etcdUpgrade_run (rb : Bool) (w : World) (d e cv bv : List Char)
    (hproxy : envGet w EnvEtcdProxy ≠ EtcdProxyOn)
    (h1 : badUnit w ETCDServiceName = none)
    (h2 : badUnit w ETCDUpgradeServiceName = none)
    (hrel : resolveRelease w = .ok (d, e))
    (hrec : resolveRecord w = .ok (cv, bv)) :
    etcdUpgrade rb w =
      ((apiPhase (upgradePhase rb d cv bv w).1).1,
       (upgradePhase rb d cv bv w).1,
       (upgradePhase rb d cv bv w).2 ++ (apiPhase (upgradePhase rb d cv bv w).1).2) := by
  unfold etcdUpgrade checkService
  rw [if_neg hproxy, h1, h2, hrel, hrec]

/-! ## Helper characterizations -/

theorem readVersionFrom_ok_props {w : World} {p : String} {cv bv : List Char}
    (h : readVersionFrom w p = .ok (cv, bv)) : cv ≠ [] ∧ '\n' ∉ cv ∧ '\n' ∉ bv := by
  unfold readVersionFrom at h
  cases hl : lookupKV p w.files with
  | none => rw [hl] at h; cases h
  | some c => rw [hl] at h; exact parse_ok_props h

theorem resolveRecord_ok_props {w : World} {cv bv : List Char}
    (h : resolveRecord w = .ok (cv, bv)) : cv ≠ [] ∧ '\n' ∉ cv ∧ '\n' ∉ bv := by
  unfold resolveRecord at h
  cases hr : readVersionFrom w DefaultEtcdCurrentVersionFile with
  | ok p =>
    rw [hr] at h
    obtain ⟨c1, c2⟩ := p
    have h' : (Except.ok (c1, c2) : Except Err (List Char × List Char)) = .ok (cv, bv) := h
    have := Except.ok.inj h'
    obtain ⟨e1, e2⟩ := Prod.mk.injEq .. ▸ this
    subst e1; subst e2
    exact readVersionFrom_ok_props hr
  | error e =>
    rw [hr] at h
    cases e with
    | notFound m =>
      have h' : (Except.ok (AssumeEtcdVersionC, ([] : List Char)) : Except Err (List Char × List Char)) = .ok (cv, bv) := h
      have := Except.ok.inj h'
      obtain ⟨e1, e2⟩ := Prod.mk.injEq .. ▸ this
      subst e1; subst e2
      refine ⟨by decide, by decide, by simp⟩
    | badParameter m => cases h
    | systemError m => cases h
    | ctxError m => cases h
    | wrapped m => cases h

theorem waitForEtcdStopped_persistent (sched : Nat → List String) (fuel : Nat) :
    ∀ i, (∀ j, "etcd" ∈ sched j) →
      waitForEtcdStopped sched i fuel = .error (.ctxError "context deadline exceeded") := by
  induction fuel with
  | zero => intro i _; rfl
  | succ n ih =>
    intro i hall
    unfold waitForEtcdStopped
    rw [if_pos (hall i)]
    exact ih (i + 1) hall

theorem waitForEtcdStopped_ok_spec (sched : Nat → List String) (fuel : Nat) :
    ∀ i, waitForEtcdStopped sched i fuel = .ok () →
      ∃ j, i ≤ j ∧ j < i + fuel ∧ "etcd" ∉ sched j := by
  induction fuel with
  | zero => intro i h; cases h
  | succ n ih =>
    intro i h
    unfold waitForEtcdStopped at h
    by_cases hm : "etcd" ∈ sched i
    · rw [if_pos hm] at h
      obtain ⟨j, hj1, hj2, hj3⟩ := ih (i + 1) h
      exact ⟨j, by omega, by omega, hj3⟩
    · exact ⟨i, le_refl i, by omega, hm⟩

/-! ## Claim theorems -/

/-- C1: on a node not in proxy mode, when either the primary or the
upgrade-shadow unit reports a status other than `inactive` or `failed`, the
upgrade/rollback flow fails with a `BadParameter` error naming the offending
unit and its status, and performs no mutation at all: the world is returned
unchanged and the effect trace is empty. -/
theorem upgrade_precondition_blocks (rb : Bool) (w : World) (svc st : String)
    (hproxy : envGet w EnvEtcdProxy ≠ EtcdProxyOn)
    (hbad : firstBad w = some (svc, st)) :
    etcdUpgrade rb w = (.error (.badParameter (precondMsg svc st)), w, []) := by
  unfold firstBad at hbad
  unfold etcdUpgrade checkService
  rw [if_neg hproxy]
  cases hb1 : badUnit w ETCDServiceName with
  | some s =>
    rw [hb1] at hbad
    have hbad' : some (ETCDServiceName, s) = some (svc, st) := hbad
    simp only [Option.some.injEq, Prod.mk.injEq] at hbad'
    obtain ⟨e1, e2⟩ := hbad'
    subst e1; subst e2
    rfl
  | none =>
    rw [hb1] at hbad
    cases hb2 : badUnit w ETCDUpgradeServiceName with
    | some s =>
      rw [hb2] at hbad
      have hbad' : some (ETCDUpgradeServiceName, s) = some (svc, st) := hbad
      simp only [Option.some.injEq, Prod.mk.injEq] at hbad'
      obtain ⟨e1, e2⟩ := hbad'
      subst e1; subst e2
      rfl
    | none =>
      rw [hb2] at hbad
      have hbad' : (none : Option (String × String)) = some (svc, st) := hbad
      cases hbad'

/-- A node with the primary etcd unit still active. -/
def WActivePrimary : World :=
  { files := [(DefaultPlanetReleaseFile, "current-version=3.3.12\n".toList)]
    dirs := []
    links := []
    env := [(EnvEtcdProxy, "off")]
    services := [(ETCDServiceName, "active"), (ETCDUpgradeServiceName, "inactive")]
    ctlFails := [] }

theorem upgrade_precondition_blocks_witness :
    etcdUpgrade false WActivePrimary
      = (.error (.badParameter (precondMsg ETCDServiceName "active")), WActivePrimary, []) :=
  upgrade_precondition_blocks false WActivePrimary ETCDServiceName "active"
    (by decide) (by decide)

/-- An empty world used for registry round-trip counterexamples. -/
def WEmpty : World :=
  { files := [], dirs := [], links := [], env := [], services := [], ctlFails := [] }

/-- C4 counterexample: writing a record with an empty current version string
(and nonempty backup "x") and reading it back does not return the written
pair; the read fails with `BadParameter`, refuting the round trip for every
version string `v`. -/
theorem write_read_empty_version_fails :
    readVersionFrom
        (writeEtcdEnvironment DefaultEtcdCurrentVersionFile [] "x".toList WEmpty).1
        DefaultEtcdCurrentVersionFile
      = .error (.badParameter "unable to parse etcd version") := by decide

/-- C4 (amended): for every nonempty version `v` and backup `b` (possibly
empty), both free of newline and carriage-return characters, writing the
record with `writeEtcdEnvironment` and reading it back with
`readEtcdVersion` returns current `v` and previous `b`. -/
theorem write_read_roundtrip (w : World) (p : String) (v b : List Char)
    (hv : v ≠ []) (hnv : '\n' ∉ v) (hrv : '\r' ∉ v) (hnb : '\n' ∉ b) (hrb : '\r' ∉ b) :
    readVersionFrom (writeEtcdEnvironment p v b w).1 p = .ok (v, b) := by
  unfold readVersionFrom writeEtcdEnvironment
  dsimp only
  rw [lookupKV_upsert_self]
  show parseVersionContent (writeContent v b) = .ok (v, b)
  rw [parse_writeContent v b hv hnv (fun h => hrv (List.mem_of_getLast?_eq_some h)) hnb]
  rw [dropCR_of_ne (fun h => hrb (List.mem_of_getLast?_eq_some h))]

theorem write_read_roundtrip_witness :
    readVersionFrom
        (writeEtcdEnvironment DefaultEtcdCurrentVersionFile "3.3.9".toList "3.0.0".toList
          WEmpty).1
        DefaultEtcdCurrentVersionFile
      = .ok ("3.3.9".toList, "3.0.0".toList) :=
  write_read_roundtrip WEmpty DefaultEtcdCurrentVersionFile "3.3.9".toList "3.0.0".toList
    (by decide) (by decide) (by decide) (by decide) (by decide)

/-- C5: the process watcher never returns success while a process whose
executable name is exactly `etcd` remains at every poll (if such a process
persists at every tick it fails with the context deadline error, within the
ticks available before the deadline), and a success implies that some poll
within the deadline observed no `etcd` process. -/
theorem waitForEtcdStopped_spec (sched : Nat → List String) (fuel : Nat) :
    ((∀ j, "etcd" ∈ sched j) →
      waitForEtcdStopped sched 0 fuel = .error (.ctxError "context deadline exceeded")) ∧
    (waitForEtcdStopped sched 0 fuel = .ok () → ∃ j, j < fuel ∧ "etcd" ∉ sched j) := by
  constructor
  · exact fun hall => waitForEtcdStopped_persistent sched fuel 0 hall
  · intro hok
    obtain ⟨j, _, hj2, hj3⟩ := waitForEtcdStopped_ok_spec sched fuel 0 hok
    exact ⟨j, by omega, hj3⟩

theorem waitForEtcdStopped_spec_witness :
    waitForEtcdStopped (fun _ => ["etcd"]) 0 2 = .error (.ctxError "context deadline exceeded") :=
  (waitForEtcdStopped_spec (fun _ => ["etcd"]) 2).1 (fun _ => by decide)

/-- C6: when the node environment already shows proxy mode off, `etcdPromote`
returns success with the world unchanged and an empty effect trace: zero
environment writes and zero service-control calls. -/
theorem promote_noop (name initialCluster initialClusterState : String) (w : World)
    (h : envGet w EnvEtcdProxy = EtcdProxyOff) :
    etcdPromote name initialCluster initialClusterState w = (.ok (), w, []) := by
  unfold etcdPromote
  rw [if_pos h]

/-- A node whose environment already has proxy mode off. -/
def WProxyOff : World :=
  { files := [], dirs := ["/ext/etcd/proxy"], links := []
    env := [(EnvEtcdProxy, "off")]
    services := [(ETCDServiceName, "active")], ctlFails := [] }

theorem promote_noop_witness :
    etcdPromote "node1" "node1=https://10.0.0.1:2380" "existing" WProxyOff
      = (.ok (), WProxyOff, []) :=
  promote_noop "node1" "node1=https://10.0.0.1:2380" "existing" WProxyOff (by decide)

/-- C9: `disableService`, for any unit name whatsoever, funnels its result
through the watch for processes named exactly `etcd` (once mask and stop
succeed the result is exactly the watcher's), and it can only report success
once a poll observed no process named `etcd` in the process table. -/
theorem disableService_waits_for_etcd (service : String) (fails : List (String × String))
    (sched : Nat → List String) (fuel : Nat)
    (hm : ("mask", service) ∉ fails) (hs : ("stop", service) ∉ fails) :
    (disableService service fails sched fuel).1 = waitForEtcdStopped sched 0 fuel ∧
    ((disableService service fails sched fuel).1 = .ok () →
      ∃ j, j < fuel ∧ "etcd" ∉ sched j) := by
  have he : (disableService service fails sched fuel).1 = waitForEtcdStopped sched 0 fuel := by
    unfold disableService
    rw [if_neg hm, if_neg hs]
  refine ⟨he, fun hok => ?_⟩
  rw [he] at hok
  obtain ⟨j, _, hj2, hj3⟩ := waitForEtcdStopped_ok_spec sched fuel 0 hok
  exact ⟨j, by omega, hj3⟩

theorem disableService_waits_for_etcd_witness :
    (disableService ETCDUpgradeServiceName [] (fun _ => ["kube-apiserver"]) 1).1
        = waitForEtcdStopped (fun _ => ["kube-apiserver"]) 0 1 ∧
    ((disableService ETCDUpgradeServiceName [] (fun _ => ["kube-apiserver"]) 1).1 = .ok () →
      ∃ j, j < 1 ∧ "etcd" ∉ (fun _ => ["kube-apiserver"]) j) :=
  disableService_waits_for_etcd ETCDUpgradeServiceName [] (fun _ => ["kube-apiserver"]) 1
    (by decide) (by decide)

/-- C7: with no version-record file and no prior data directory, `etcdInit`
resolves the current version to the desired version from the release
descriptor, writes a version record with that version and an empty backup,
and points the binary symlink at the desired version. -/
theorem etcdInit_new_install (w : World) (d e : List Char)
    (hrec : lookupKV DefaultEtcdCurrentVersionFile w.files = none)
    (hmem : DefaultEtcdMemberDir ∉ w.dirs)
    (hrel : resolveRelease w = .ok (d, e))
    (hbase : DefaultEtcdStoreBase ∈ w.dirs) :
    (etcdInit w).1 = .ok () ∧
    lookupKV DefaultEtcdCurrentVersionFile (etcdInit w).2.1.files = some (writeContent d []) ∧
    lookupKV "/usr/bin/etcd" (etcdInit w).2.1.links
      = some ("/usr/bin/etcd" ++ "-" ++ String.mk d) := by
  have hinit : initResolve d w
      = .ok (d, (writeEtcdEnvironment DefaultEtcdCurrentVersionFile d [] w).1,
             (writeEtcdEnvironment DefaultEtcdCurrentVersionFile d [] w).2) := by
    unfold initResolve readVersionFrom
    rw [hrec, if_neg hmem]
  unfold etcdInit
  rw [hrel]
  dsimp only
  rw [hinit]
  dsimp only [relinkBinary, writeEtcdEnvironment]
  by_cases hdest : getBaseEtcdDir d ∈ w.dirs
  · rw [if_pos hdest, if_pos hbase]
    refine ⟨rfl, ?_, ?_⟩
    · dsimp only
      rw [lookupKV_upsert_self]
    · dsimp only
      rw [lookupKV_upsert_ne (DefaultEtcdStoreBase ++ "/latest") "/usr/bin/etcd" (by decide),
        lookupKV_upsert_ne "/usr/bin/etcdctl" "/usr/bin/etcd" (by decide),
        lookupKV_upsert_self]
  · rw [if_neg hdest, if_pos (List.mem_cons_of_mem _ hbase)]
    refine ⟨rfl, ?_, ?_⟩
    · dsimp only
      rw [lookupKV_upsert_self]
    · dsimp only
      rw [lookupKV_upsert_ne (DefaultEtcdStoreBase ++ "/latest") "/usr/bin/etcd" (by decide),
        lookupKV_upsert_ne "/usr/bin/etcdctl" "/usr/bin/etcd" (by decide),
        lookupKV_upsert_self]

/-- A fresh node: release descriptor present, no version record, no legacy
data directory. -/
def WFresh : World :=
  { files := [(DefaultPlanetReleaseFile, "current-version=3.3.12\n".toList)]
    dirs := ["/ext/etcd"]
    links := []
    env := []
    services := []
    ctlFails := [] }

theorem etcdInit_new_install_witness :
    (etcdInit WFresh).1 = .ok () ∧
    lookupKV DefaultEtcdCurrentVersionFile (etcdInit WFresh).2.1.files
      = some (writeContent "3.3.12".toList []) ∧
    lookupKV "/usr/bin/etcd" (etcdInit WFresh).2.1.links
      = some ("/usr/bin/etcd" ++ "-" ++ String.mk "3.3.12".toList) :=
  etcdInit_new_install WFresh "3.3.12".toList []
    (by decide) (by decide) (by decide) (by decide)

/-- C10: a rollback on a non-proxy node whose version record has an empty
backup version succeeds as a no-op on the state: the returned world is the
input world (version record file and directory layout unchanged), and the
effect trace holds no file write and no directory deletion. -/
theorem rollback_empty_backup_noop (w : World) (d e cv : List Char) (ast : String)
    (hproxy : envGet w EnvEtcdProxy ≠ EtcdProxyOn)
    (h1 : badUnit w ETCDServiceName = none)
    (h2 : badUnit w ETCDUpgradeServiceName = none)
    (hrel : resolveRelease w = .ok (d, e))
    (hrec : resolveRecord w = .ok (cv, []))
    (hapi : lookupKV APIServerServiceName w.services = some ast) :
    (etcdUpgrade true w).1 = .ok () ∧
    (etcdUpgrade true w).2.1 = w ∧
    (∀ p : String, Effect.writeFile p ∉ (etcdUpgrade true w).2.2 ∧
      Effect.removeAll p ∉ (etcdUpgrade true w).2.2) := by
  have hrun := etcdUpgrade_run true w d e cv [] hproxy h1 h2 hrel hrec
  rw [upgradePhase_rollback_nil] at hrun
  rw [hrun]
  dsimp only
  unfold apiPhase
  rw [hapi]
  dsimp only
  by_cases hast : ast ≠ "inactive"
  · rw [if_pos hast]
    refine ⟨rfl, rfl, fun p => ⟨?_, ?_⟩⟩ <;> simp
  · rw [if_neg hast]
    refine ⟨rfl, rfl, fun p => ⟨?_, ?_⟩⟩ <;> simp

/-- A non-proxy node with a version record holding no backup, both etcd
units inactive and an active kube-apiserver. -/
def WNoBackup : World :=
  { files := [(DefaultPlanetReleaseFile, "current-version=3.3.12\n".toList),
              (DefaultEtcdCurrentVersionFile, writeContent "3.3.9".toList [])]
    dirs := ["/ext/etcd", "/ext/etcd/3.3.9", "/ext/etcd/3.3.9/member"]
    links := []
    env := [(EnvEtcdProxy, "off")]
    services := [(ETCDServiceName, "inactive"), (ETCDUpgradeServiceName, "inactive"),
                 (APIServerServiceName, "active")]
    ctlFails := [] }

theorem rollback_empty_backup_noop_witness :
    (etcdUpgrade true WNoBackup).1 = .ok () ∧
    (etcdUpgrade true WNoBackup).2.1 = WNoBackup ∧
    (∀ p : String, Effect.writeFile p ∉ (etcdUpgrade true WNoBackup).2.2 ∧
      Effect.removeAll p ∉ (etcdUpgrade true WNoBackup).2.2) :=
  rollback_empty_backup_noop WNoBackup "3.3.12".toList [] "3.3.9".toList "active"
    (by decide) (by decide) (by decide) (by decide) (by decide) (by decide)

/-- C8: at the end of the flow, when the kube-apiserver is not inactive, a
restart of it is requested, and the flow still returns success for every
configuration of failing systemctl invocations (a failed restart is only
logged, never propagated). -/
theorem api_restart_best_effort (rb : Bool) (w : World) (d e cv bv : List Char) (ast : String)
    (hproxy : envGet w EnvEtcdProxy ≠ EtcdProxyOn)
    (h1 : badUnit w ETCDServiceName = none)
    (h2 : badUnit w ETCDUpgradeServiceName = none)
    (hrel : resolveRelease w = .ok (d, e))
    (hrec : resolveRecord w = .ok (cv, bv))
    (hapi : lookupKV APIServerServiceName w.services = some ast)
    (hast : ast ≠ "inactive") :
    (etcdUpgrade rb w).1 = .ok () ∧
    Effect.ctl "restart" APIServerServiceName ∈ (etcdUpgrade rb w).2.2 := by
  have hrun := etcdUpgrade_run rb w d e cv bv hproxy h1 h2 hrel hrec
  have hap : apiPhase (upgradePhase rb d cv bv w).1
      = (.ok (), [.ctl "restart" APIServerServiceName]) := by
    rw [apiPhase_services (upgradePhase_services rb d cv bv w)]
    unfold apiPhase
    rw [hapi]
    dsimp only
    rw [if_pos hast]
  rw [hrun, hap]
  exact ⟨rfl, by simp⟩

theorem api_restart_best_effort_witness :
    (etcdUpgrade false WNoBackup).1 = .ok () ∧
    Effect.ctl "restart" APIServerServiceName ∈ (etcdUpgrade false WNoBackup).2.2 :=
  api_restart_best_effort false WNoBackup "3.3.12".toList [] "3.3.9".toList [] "active"
    (by decide) (by decide) (by decide) (by decide) (by decide) (by decide) (by decide)

/-- The consumer-service phase succeeds whenever the status query succeeds. -/
theorem apiPhase_ok {u : World} {ast : String}
    (hu : lookupKV APIServerServiceName u.services = some ast) : (apiPhase u).1 = .ok () := by
  unfold apiPhase
  rw [hu]
  dsimp only
  by_cases hast : ast ≠ "inactive"
  · rw [if_pos hast]
  · rw [if_neg hast]

/-- The normal form of the record/directory phase of a non-converged
upgrade: the record now holds `(d, cv)` and the target member directory has
just been purged (for some intermediate directory list `D`). -/
theorem upgradePhase_upgrade_ne_shape (d cv bv : List Char) (hne : cv ≠ d) (w : World) :
    ∃ D T, upgradePhase false d cv bv w =
      ({ w with files := upsertKV DefaultEtcdCurrentVersionFile (writeContent d cv) w.files,
                dirs := removeAllDirs (memberDir d) D }, T) := by
  by_cases hbv : bv = []
  · subst hbv
    exact ⟨w.dirs, _, upgradePhase_upgrade_ne_nil d cv hne w⟩
  · exact ⟨removeAllDirs (memberDir bv) w.dirs, _, upgradePhase_upgrade_ne_some d cv bv hne hbv w⟩

/-- A converged upgrade run (recorded current version already the desired
one, target member directory already purged) succeeds and leaves the world
unchanged. -/
theorem upgrade_converged (u : World) (d e' bv' : List Char) (ast : String)
    (hproxy : envGet u EnvEtcdProxy ≠ EtcdProxyOn)
    (h1 : badUnit u ETCDServiceName = none)
    (h2 : badUnit u ETCDUpgradeServiceName = none)
    (hrel : resolveRelease u = .ok (d, e'))
    (hrec : resolveRecord u = .ok (d, bv'))
    (hapi : lookupKV APIServerServiceName u.services = some ast)
    (hdirs : removeAllDirs (memberDir d) u.dirs = u.dirs) :
    (etcdUpgrade false u).1 = .ok () ∧ (etcdUpgrade false u).2.1 = u := by
  have hrun := etcdUpgrade_run false u d e' d bv' hproxy h1 h2 hrel hrec
  rw [upgradePhase_upgrade_eq] at hrun
  rw [hrun]
  dsimp only
  constructor
  · exact apiPhase_ok hapi
  · rw [hdirs]

/-- C2 (amended): with the flow's preconditions satisfied and the desired
version value of the release descriptor not ending in a carriage-return
character, running the upgrade flow twice consecutively with no intervening
external change succeeds both times, and the second run returns exactly the
world produced by the first: identical version record and directory layout. -/
theorem upgrade_idempotent (w : World) (d e cv bv : List Char) (ast : String)
    (hproxy : envGet w EnvEtcdProxy ≠ EtcdProxyOn)
    (h1 : badUnit w ETCDServiceName = none)
    (h2 : badUnit w ETCDUpgradeServiceName = none)
    (hrel : resolveRelease w = .ok (d, e))
    (hcr : d.getLast? ≠ some '\r')
    (hrec : resolveRecord w = .ok (cv, bv))
    (hapi : lookupKV APIServerServiceName w.services = some ast) :
    (etcdUpgrade false w).1 = .ok () ∧
    (etcdUpgrade false (etcdUpgrade false w).2.1).1 = .ok () ∧
    (etcdUpgrade false (etcdUpgrade false w).2.1).2.1 = (etcdUpgrade false w).2.1 := by
  obtain ⟨hdne, hdnl, -⟩ := readVersionFrom_ok_props hrel
  obtain ⟨-, hcnl, -⟩ := resolveRecord_ok_props hrec
  have hrun1 := etcdUpgrade_run false w d e cv bv hproxy h1 h2 hrel hrec
  by_cases hcd : cv = d
  · subst hcd
    rw [upgradePhase_upgrade_eq] at hrun1
    have hconv := upgrade_converged
      { w with dirs := removeAllDirs (memberDir cv) w.dirs } cv e bv ast
      hproxy h1 h2 hrel hrec hapi
      (removeAllDirs_idem (memberDir cv) w.dirs)
    rw [hrun1]
    dsimp only
    exact ⟨apiPhase_ok hapi, hconv.1, hconv.2⟩
  · obtain ⟨D, T, hup⟩ := upgradePhase_upgrade_ne_shape d cv bv hcd w
    rw [hup] at hrun1
    have hrel2 : resolveRelease
        { w with files := upsertKV DefaultEtcdCurrentVersionFile (writeContent d cv) w.files,
                 dirs := removeAllDirs (memberDir d) D } = .ok (d, e) := by
      unfold resolveRelease readVersionFrom
      show (match lookupKV DefaultPlanetReleaseFile
          (upsertKV DefaultEtcdCurrentVersionFile (writeContent d cv) w.files) with
        | none => Except.error (Err.notFound ("failed to open " ++ DefaultPlanetReleaseFile))
        | some c => parseVersionContent c) = Except.ok (d, e)
      rw [lookupKV_upsert_ne DefaultEtcdCurrentVersionFile DefaultPlanetReleaseFile (by decide)]
      exact hrel
    have hrec2 : resolveRecord
        { w with files := upsertKV DefaultEtcdCurrentVersionFile (writeContent d cv) w.files,
                 dirs := removeAllDirs (memberDir d) D } = .ok (d, dropCR cv) := by
      unfold resolveRecord readVersionFrom
      show (match (match lookupKV DefaultEtcdCurrentVersionFile
          (upsertKV DefaultEtcdCurrentVersionFile (writeContent d cv) w.files) with
        | none => Except.error (Err.notFound ("failed to open " ++ DefaultEtcdCurrentVersionFile))
        | some c => parseVersionContent c) with
        | Except.error (Err.notFound m) => Except.ok (AssumeEtcdVersionC, ([] : List Char))
        | r => r) = Except.ok (d, dropCR cv)
      rw [lookupKV_upsert_self]
      show (match parseVersionContent (writeContent d cv) with
        | Except.error (Err.notFound m) => Except.ok (AssumeEtcdVersionC, ([] : List Char))
        | r => r) = Except.ok (d, dropCR cv)
      rw [parse_writeContent d cv hdne hdnl hcr hcnl]
    have hconv := upgrade_converged
      { w with files := upsertKV DefaultEtcdCurrentVersionFile (writeContent d cv) w.files,
               dirs := removeAllDirs (memberDir d) D } d e (dropCR cv) ast
      hproxy h1 h2 hrel2 hrec2 hapi
      (removeAllDirs_idem (memberDir d) D)
    rw [hrun1]
    dsimp only
    exact ⟨apiPhase_ok hapi, hconv.1, hconv.2⟩

/-- A release descriptor whose desired version value ends with a carriage
return (record file line `current-version=3.3.12CR CR LF`). -/
def WCrlf : World :=
  { files := [(DefaultPlanetReleaseFile, "current-version=3.3.12\r\r\n".toList),
              (DefaultEtcdCurrentVersionFile, writeContent "3.3.9".toList [])]
    dirs := []
    links := []
    env := [(EnvEtcdProxy, "off")]
    services := [(ETCDServiceName, "inactive"), (ETCDUpgradeServiceName, "inactive"),
                 (APIServerServiceName, "inactive")]
    ctlFails := [] }

/-- C2 counterexample: when the release descriptor's desired version value
ends in a carriage return, both upgrade runs succeed with no intervening
external change, yet the version record after the second run differs from
the record after the first (the scanner strips the carriage return on
re-read, so the flow never converges on the first run). -/
theorem upgrade_twice_crlf_differs :
    (etcdUpgrade false WCrlf).1 = .ok () ∧
    (etcdUpgrade false (etcdUpgrade false WCrlf).2.1).1 = .ok () ∧
    lookupKV DefaultEtcdCurrentVersionFile
        (etcdUpgrade false (etcdUpgrade false WCrlf).2.1).2.1.files
      ≠ lookupKV DefaultEtcdCurrentVersionFile (etcdUpgrade false WCrlf).2.1.files :=
  ⟨by decide, by decide, by decide⟩

theorem upgrade_idempotent_witness :
    (etcdUpgrade false WNoBackup).1 = .ok () ∧
    (etcdUpgrade false (etcdUpgrade false WNoBackup).2.1).1 = .ok () ∧
    (etcdUpgrade false (etcdUpgrade false WNoBackup).2.1).2.1
      = (etcdUpgrade false WNoBackup).2.1 :=
  upgrade_idempotent WNoBackup "3.3.12".toList [] "3.3.9".toList [] "active"
    (by decide) (by decide) (by decide) (by decide) (by decide) (by decide) (by decide)

/-- C3 (amended): starting from a canonical version record with an empty
backup (file content exactly as `writeEtcdEnvironment` writes it, versions
free of newline/carriage-return artifacts), with the desired version
different from the current one, running the upgrade flow and then the
rollback flow succeeds and restores the version record file exactly: same
current version, empty backup, same derived storage-backend tag.  (With a
nonempty starting backup the rollback clears it instead of restoring it.) -/
theorem upgrade_rollback_restores (w : World) (d e c : List Char) (ast : String)
    (hproxy : envGet w EnvEtcdProxy ≠ EtcdProxyOn)
    (h1 : badUnit w ETCDServiceName = none)
    (h2 : badUnit w ETCDUpgradeServiceName = none)
    (hrel : resolveRelease w = .ok (d, e))
    (hcr : d.getLast? ≠ some '\r')
    (hfile : lookupKV DefaultEtcdCurrentVersionFile w.files = some (writeContent c []))
    (hc : c ≠ []) (hnc : '\n' ∉ c) (hrc : c.getLast? ≠ some '\r')
    (hcd : c ≠ d)
    (hapi : lookupKV APIServerServiceName w.services = some ast) :
    (etcdUpgrade false w).1 = .ok () ∧
    (etcdUpgrade true (etcdUpgrade false w).2.1).1 = .ok () ∧
    lookupKV DefaultEtcdCurrentVersionFile
        (etcdUpgrade true (etcdUpgrade false w).2.1).2.1.files
      = some (writeContent c []) := by
  obtain ⟨hdne, hdnl, -⟩ := readVersionFrom_ok_props hrel
  have hrec : resolveRecord w = .ok (c, []) := by
    unfold resolveRecord readVersionFrom
    rw [hfile]
    show (match parseVersionContent (writeContent c []) with
      | Except.error (Err.notFound m) => Except.ok (AssumeEtcdVersionC, ([] : List Char))
      | r => r) = Except.ok (c, [])
    rw [parse_writeContent c [] hc hnc hrc (by simp)]
    rfl
  have hrun1 := etcdUpgrade_run false w d e c [] hproxy h1 h2 hrel hrec
  rw [upgradePhase_upgrade_ne_nil d c hcd w] at hrun1
  have hrel2 : resolveRelease
      { w with files := upsertKV DefaultEtcdCurrentVersionFile (writeContent d c) w.files,
               dirs := removeAllDirs (memberDir d) w.dirs } = .ok (d, e) := by
    unfold resolveRelease readVersionFrom
    show (match lookupKV DefaultPlanetReleaseFile
        (upsertKV DefaultEtcdCurrentVersionFile (writeContent d c) w.files) with
      | none => Except.error (Err.notFound ("failed to open " ++ DefaultPlanetReleaseFile))
      | some c => parseVersionContent c) = Except.ok (d, e)
    rw [lookupKV_upsert_ne DefaultEtcdCurrentVersionFile DefaultPlanetReleaseFile (by decide)]
    exact hrel
  have hrec2 : resolveRecord
      { w with files := upsertKV DefaultEtcdCurrentVersionFile (writeContent d c) w.files,
               dirs := removeAllDirs (memberDir d) w.dirs } = .ok (d, c) := by
    unfold resolveRecord readVersionFrom
    show (match (match lookupKV DefaultEtcdCurrentVersionFile
        (upsertKV DefaultEtcdCurrentVersionFile (writeContent d c) w.files) with
      | none => Except.error (Err.notFound ("failed to open " ++ DefaultEtcdCurrentVersionFile))
      | some c => parseVersionContent c) with
      | Except.error (Err.notFound m) => Except.ok (AssumeEtcdVersionC, ([] : List Char))
      | r => r) = Except.ok (d, c)
    rw [lookupKV_upsert_self]
    show (match parseVersionContent (writeContent d c) with
      | Except.error (Err.notFound m) => Except.ok (AssumeEtcdVersionC, ([] : List Char))
      | r => r) = Except.ok (d, c)
    rw [parse_writeContent d c hdne hdnl hcr hnc, dropCR_of_ne hrc]
  have hrun2 := etcdUpgrade_run true
    { w with files := upsertKV DefaultEtcdCurrentVersionFile (writeContent d c) w.files,
             dirs := removeAllDirs (memberDir d) w.dirs } d e d c
    hproxy h1 h2 hrel2 hrec2
  rw [upgradePhase_rollback_some d d c hc] at hrun2
  refine ⟨?_, ?_, ?_⟩
  · rw [hrun1]
    dsimp only
    exact apiPhase_ok hapi
  · rw [hrun1]
    dsimp only
    rw [hrun2]
    dsimp only [writeEtcdEnvironment]
    exact apiPhase_ok hapi
  · rw [hrun1]
    dsimp only
    rw [hrun2]
    dsimp only [writeEtcdEnvironment]
    rw [lookupKV_upsert_self]

/-- A version record whose backup slot is occupied (current 3.3.9, backup
3.0.0), with desired version 3.3.12. -/
def WWithBackup : World :=
  { files := [(DefaultPlanetReleaseFile, "current-version=3.3.12\n".toList),
              (DefaultEtcdCurrentVersionFile, writeContent "3.3.9".toList "3.0.0".toList)]
    dirs := []
    links := []
    env := [(EnvEtcdProxy, "off")]
    services := [(ETCDServiceName, "inactive"), (ETCDUpgradeServiceName, "inactive"),
                 (APIServerServiceName, "inactive")]
    ctlFails := [] }

/-- C3 counterexample: starting from a record with a nonempty backup
(current 3.3.9, backup 3.0.0), upgrade followed by rollback yields a record
with current 3.3.9 and an empty backup — the original record is not restored
exactly, its backup version is lost. -/
theorem rollback_loses_nonempty_backup :
    readVersionFrom WWithBackup DefaultEtcdCurrentVersionFile
      = .ok ("3.3.9".toList, "3.0.0".toList) ∧
    (etcdUpgrade false WWithBackup).1 = .ok () ∧
    (etcdUpgrade true (etcdUpgrade false WWithBackup).2.1).1 = .ok () ∧
    readVersionFrom (etcdUpgrade true (etcdUpgrade false WWithBackup).2.1).2.1
        DefaultEtcdCurrentVersionFile
      = .ok ("3.3.9".toList, []) ∧
    readVersionFrom (etcdUpgrade true (etcdUpgrade false WWithBackup).2.1).2.1
        DefaultEtcdCurrentVersionFile
      ≠ readVersionFrom WWithBackup DefaultEtcdCurrentVersionFile :=
  ⟨by decide, by decide, by decide, by decide, by decide⟩

theorem upgrade_rollback_restores_witness :
    (etcdUpgrade false WNoBackup).1 = .ok () ∧
    (etcdUpgrade true (etcdUpgrade false WNoBackup).2.1).1 = .ok () ∧
    lookupKV DefaultEtcdCurrentVersionFile
        (etcdUpgrade true (etcdUpgrade false WNoBackup).2.1).2.1.files
      = some (writeContent "3.3.9".toList []) :=
  upgrade_rollback_restores WNoBackup "3.3.12".toList [] "3.3.9".toList "active"
    (by decide) (by decide) (by decide) (by decide) (by decide) (by decide) (by decide)
    (by decide) (by decide) (by decide) (by decide)

end Planet
